import Mathlib

/-!
Verification of the node-local timestamp/placement core of the
hubt/cockroach repository: the hybrid logical clock (`util/hlc`), the
range descriptor containment predicates (`storage/config.go`), and the
read-timestamp cache and store dispatch layer (present in the repository
only through their tests; modelled here from the design document).

Go `int64` values are modelled as `Int`; byte-string keys as `List Nat`.
Stateful methods are modelled by explicit state passing: a method that in
Go mutates the receiver becomes a function returning the new state.
The clock's physical-time source (a stored closure in Go) is passed as an
explicit argument at each call.
-/

set_option autoImplicit false

namespace Cockroach

/-- `Timestamp` represents a state of the hybrid logical clock
(src/unnamed/part_001, lines 39-49): a wall time in nanoseconds and a
logical component capturing causality for events with equal wall times. -/
structure Timestamp where
  WallTime : Int
  Logical : Int
deriving DecidableEq, Repr

/-- `Timestamp.Less` (src/unnamed/part_001, lines 61-63): compare wall
times first, break ties on the logical component. -/
def Timestamp.Less (t s : Timestamp) : Bool :=
  t.WallTime < s.WallTime || (t.WallTime == s.WallTime && t.Logical < s.Logical)

/-- `Timestamp.Equal` (src/unnamed/part_001, lines 66-68). -/
def Timestamp.Equal (t s : Timestamp) : Bool :=
  t.WallTime == s.WallTime && t.Logical == s.Logical

/-- `Clock` (src/unnamed/part_001, lines 81-91): the mutable state of the
hybrid logical clock together with the `maxDrift` configuration (in
nanoseconds; 0 disables drift checking).  The `physicalClock` closure is
supplied per call instead of being stored. -/
structure Clock where
  state : Timestamp
  maxDrift : Int
deriving DecidableEq, Repr

/-- `NewClock` (src/unnamed/part_001, lines 117-121): wall time, logical
time and max drift all start at zero. -/
def NewClock : Clock :=
  { state := ⟨0, 0⟩, maxDrift := 0 }

/-- `Clock.Now` (src/unnamed/part_001, lines 168-185): if the stored wall
time is at or ahead of the physical clock, the logical clock ticks;
otherwise the physical time is adopted and the logical clock resets.
Returns the resulting timestamp (read back from the state after the
mutation, as the Go code does via its deferred assignment) and the new
clock state. -/
def Clock.Now (c : Clock) (physicalClock : Int) : Timestamp × Clock :=
  if c.state.WallTime ≥ physicalClock then
    let c2 : Clock := { c with state := ⟨c.state.WallTime, c.state.Logical + 1⟩ }
    (c2.state, c2)
  else
    let c2 : Clock := { c with state := ⟨physicalClock, 0⟩ }
    (c2.state, c2)

/-- Outcome of `Clock.Update`: the returned timestamp, the clock state
after the call, and whether the drift error was returned. -/
structure UpdateOut where
  result : Timestamp
  clock : Clock
  err : Bool
deriving DecidableEq, Repr

/-- `Clock.Update` (src/unnamed/part_001, lines 196-242).  Mirrors the Go
branch structure: (1) physical clock ahead of both wall times adopts the
physical time; (2) remote wall time ahead is adopted with
`logical = remote.Logical + 1`, unless drift checking is active and the
remote wall time is more than `maxDrift` ahead of the physical clock, in
which case an error is returned with the state untouched; (3) local wall
time ahead ticks the logical clock; (4) equal wall times take the larger
logical value and tick.  As in Go, the returned timestamp is read back
from the state after the call even on the error path. -/
def Clock.Update (c : Clock) (physicalClock : Int) (rt : Timestamp) : UpdateOut :=
  if physicalClock > c.state.WallTime ∧ physicalClock > rt.WallTime then
    let c2 : Clock := { c with state := ⟨physicalClock, 0⟩ }
    ⟨c2.state, c2, false⟩
  else if rt.WallTime > c.state.WallTime then
    if c.maxDrift > 0 ∧ rt.WallTime - physicalClock > c.maxDrift then
      ⟨c.state, c, true⟩
    else
      let c2 : Clock := { c with state := ⟨rt.WallTime, rt.Logical + 1⟩ }
      ⟨c2.state, c2, false⟩
  else if c.state.WallTime > rt.WallTime then
    let c2 : Clock := { c with state := ⟨c.state.WallTime, c.state.Logical + 1⟩ }
    ⟨c2.state, c2, false⟩
  else
    let l : Int := if rt.Logical > c.state.Logical then rt.Logical else c.state.Logical
    let c2 : Clock := { c with state := ⟨c.state.WallTime, l + 1⟩ }
    ⟨c2.state, c2, false⟩

/-- Running a list of `Now` calls, one per physical-clock reading,
collecting the returned timestamps. -/
def Clock.nowSeq (c : Clock) : List Int → List Timestamp
  | [] => []
  | pc :: rest => (c.Now pc).1 :: (c.Now pc).2.nowSeq rest

/-- Modelled from the spec: `engine.Key` (the engine package is not under
src/) is a byte string; this design consumes it only through a total
lexicographic order.  Bytes are modelled as natural numbers. -/
abbrev Key := List Nat

/-- Modelled from the spec: `engine.Key.Less` is the strict lexicographic
order on byte strings (the order of `bytes.Compare`): a proper prefix is
smaller, and otherwise the first differing byte decides. -/
def Key.less : Key → Key → Bool
  | [], [] => false
  | [], _ :: _ => true
  | _ :: _, [] => false
  | a :: as, b :: bs => if a < b then true else if b < a then false else Key.less as bs

/-- `Replica` (src/storage/config.go, lines 37-42): a replica location by
node ID, store ID and range ID (the attribute payload is inert data and
is omitted). -/
structure Replica where
  NodeID : Int
  StoreID : Int
  RangeID : Int
deriving DecidableEq, Repr

/-- `RangeDescriptor` (src/storage/config.go, lines 47-56): an inclusive
start key, a non-inclusive end key, and the replicas storing the range. -/
structure RangeDescriptor where
  StartKey : Key
  EndKey : Key
  Replicas : List Replica
deriving DecidableEq, Repr

/-- `RangeDescriptor.ContainsKey` (src/storage/config.go, lines 59-61):
`!key.Less(r.StartKey) && key.Less(r.EndKey)`. -/
def RangeDescriptor.ContainsKey (r : RangeDescriptor) (key : Key) : Bool :=
  !key.less r.StartKey && key.less r.EndKey

/-- `RangeDescriptor.ContainsKeyRange` (src/storage/config.go, lines
65-73).  An empty end key is replaced by the start key; an end key below
the start key is a programming fault in the Go code (it aborts), modelled
as `none`; otherwise `!start.Less(r.StartKey) && !r.EndKey.Less(end)`. -/
def RangeDescriptor.ContainsKeyRange (r : RangeDescriptor) (start «end» : Key) :
    Option Bool :=
  let e := if «end».length = 0 then start else «end»
  if e.less start then
    none
  else
    some (!start.less r.StartKey && !r.EndKey.less e)

/-- The descriptor spanning keys "a" (byte 97) to "z" (byte 122), used by
the repository's containment examples. -/
def descAZ : RangeDescriptor :=
  { StartKey := [97], EndKey := [122], Replicas := [] }

/-- Maximum of two timestamps in the timestamp total order. -/
def tsMax (a b : Timestamp) : Timestamp :=
  if a.Less b then b else a

/-- `a` is at or below `b` in the timestamp total order. -/
def tsLe (a b : Timestamp) : Prop :=
  a.Less b = true ∨ a = b

/-- Maximum of a list of timestamps over a starting floor. -/
def tsListMax (acc : Timestamp) : List Timestamp → Timestamp
  | [] => acc
  | t :: ts => tsListMax (tsMax acc t) ts

/-- Modelled from the spec: the read-timestamp cache (its implementation
is not under src/; only its tests are).  Entries record intervals
`[start, end)` — or a single key when the end key is empty — with the
read timestamp observed for them; `highWater` is the floor returned for
keys with no overlapping entry. -/
structure ReadTimestampCache where
  entries : List (Key × Key × Timestamp)
  highWater : Timestamp
deriving DecidableEq, Repr

/-- Modelled from the spec: a fresh cache has no entries and a high-water
mark of the clock's current time plus `maxDrift`. -/
def NewReadTimestampCache (clockTs : Timestamp) (maxDrift : Int) : ReadTimestampCache :=
  { entries := [], highWater := ⟨clockTs.WallTime + maxDrift, clockTs.Logical⟩ }

/-- Modelled from the spec: whether the stored interval `[s1, e1)` (or
single key `s1` when `e1` is empty) overlaps the queried interval
`[s2, e2)` (or single key `s2` when `e2` is empty). -/
def overlaps (s1 e1 s2 e2 : Key) : Bool :=
  if e1.length = 0 then
    if e2.length = 0 then
      decide (s1 = s2)
    else
      !s1.less s2 && s1.less e2
  else
    if e2.length = 0 then
      !s2.less s1 && s2.less e1
    else
      s1.less e2 && s2.less e1

/-- Modelled from the spec: `Add` records a read of `[start, end)` (or of
the single key `start`) at timestamp `ts`; overlapping entries are
retained layered rather than merged. -/
def ReadTimestampCache.Add (rtc : ReadTimestampCache) (start «end» : Key)
    (ts : Timestamp) : ReadTimestampCache :=
  { rtc with entries := (start, «end», ts) :: rtc.entries }

/-- The timestamps of the stored entries overlapping a queried interval. -/
def ReadTimestampCache.overlapping (rtc : ReadTimestampCache) (start «end» : Key) :
    List Timestamp :=
  (rtc.entries.filter (fun ent => overlaps ent.1 ent.2.1 start «end»)).map
    (fun ent => ent.2.2)

/-- Modelled from the spec: `GetMax` returns the maximum, over the
high-water mark and every stored entry overlapping the queried interval,
of the recorded timestamps. -/
def ReadTimestampCache.GetMax (rtc : ReadTimestampCache) (start «end» : Key) : Timestamp :=
  tsListMax rtc.highWater (rtc.overlapping start «end»)

/-- Modelled from the spec: `Clear` discards all entries and recomputes
the high-water mark as the clock's current time plus `maxDrift`. -/
def ReadTimestampCache.Clear (rtc : ReadTimestampCache) (clockTs : Timestamp)
    (maxDrift : Int) : ReadTimestampCache :=
  NewReadTimestampCache clockTs maxDrift

/-- Modelled from the spec: eviction folds every entry whose age at the
current wall time exceeds `minCacheWindow` into the high-water mark
(raising it to the folded entry's timestamp when that is higher) and
keeps the rest. -/
def ReadTimestampCache.evict (rtc : ReadTimestampCache) (nowWall minCacheWindow : Int) :
    ReadTimestampCache :=
  { entries := rtc.entries.filter
      (fun ent => !decide (ent.2.2.WallTime + minCacheWindow ≤ nowWall))
  , highWater := tsListMax rtc.highWater
      ((rtc.entries.filter (fun ent => decide (ent.2.2.WallTime + minCacheWindow ≤ nowWall))).map
        (fun ent => ent.2.2)) }

/-- The clock of the layered-intervals scenario: created at physical time
0 with `maxDrift = 250ms`. -/
def layeredClock0 : Clock := ⟨⟨0, 0⟩, 250000000⟩

/-- Physical time `maxDrift + 1ns` used by the layered scenario. -/
def layeredP : Int := 250000001

/-- Timestamp of the read of `["a", "d")` in the layered scenario. -/
def adTS : Timestamp := (layeredClock0.Now layeredP).1

def layeredClock1 : Clock := (layeredClock0.Now layeredP).2

/-- Timestamp of the read of `["b", "e")` in the layered scenario. -/
def beTS : Timestamp := (layeredClock1.Now layeredP).1

def layeredClock2 : Clock := (layeredClock1.Now layeredP).2

/-- Timestamp of the read of the single key "c" in the layered scenario. -/
def cTS : Timestamp := (layeredClock2.Now layeredP).1

/-- The cache of the layered-intervals scenario: `Add("a","d",adTS)`,
`Add("b","e",beTS)`, `Add("c",nil,cTS)` over a fresh cache (bytes:
a=97, b=98, c=99, d=100, e=101). -/
def layeredCache : ReadTimestampCache :=
  (((NewReadTimestampCache layeredClock0.state layeredClock0.maxDrift).Add
    [97] [100] adTS).Add [98] [101] beTS).Add [99] [] cTS

/-- Modelled from the spec: `StoreIdent` (the store implementation is not
under src/; only its tests are) — cluster, node and store identity,
written once at bootstrap and read back by `Init`. -/
structure StoreIdent where
  clusterID : String
  nodeID : Int
  storeID : Int
deriving DecidableEq, Repr

/-- Modelled from the spec: `RangeMetadata` — cluster id and range id plus
the embedded descriptor; the durable unit written to the engine. -/
structure RangeMetadata where
  clusterID : String
  rangeID : Int
  desc : RangeDescriptor
deriving DecidableEq, Repr

/-- Modelled from the spec: the values this core persists in the
key-value engine — the store ident record, range metadata records, and
raw bytes written by other users of the engine. -/
inductive EngineValue where
  | identVal (si : StoreIdent)
  | rangeMetaVal (rm : RangeMetadata)
  | rawBytes (bs : List Nat)
deriving DecidableEq, Repr

/-- Modelled from the spec: the key-value engine, as an association list
over byte-string keys. -/
abbrev Engine := List (Key × EngineValue)

/-- Engine `Get`: the value stored at `k`, if any. -/
def engGet (eng : Engine) (k : Key) : Option EngineValue :=
  match eng.find? (fun kv => decide (kv.1 = k)) with
  | some kv => some kv.2
  | none => none

/-- Engine `Put`: replace the value at `k` or append a new record. -/
def engPut (eng : Engine) (k : Key) (v : EngineValue) : Engine :=
  match eng with
  | [] => [(k, v)]
  | kv :: rest => if kv.1 = k then (k, v) :: rest else kv :: engPut rest k v

/-- Modelled from the spec: the sentinel minimum key bounding the key
space. -/
def KeyMin : Key := []

/-- Modelled from the spec: the sentinel maximum key bounding the key
space. -/
def KeyMax : Key := [255, 255]

/-- Modelled from the spec: the fixed well-known key of the `StoreIdent`
record (bytes of "\x00store"). -/
def keyStoreIdent : Key := [0, 115, 116, 111, 114, 101]

/-- Modelled from the spec: the metadata key derived from a range's end
key (bytes of "\x00meta" followed by the end key). -/
def rangeMetaKey (endKey : Key) : Key := [0, 109, 101, 116, 97] ++ endKey

/-- Modelled from the spec: the argument header carried by every command:
target replica, key, optional end key, optional proposed timestamp. -/
structure RequestHeader where
  replica : Replica
  key : Key
  endKey : Key
  timestamp : Timestamp
deriving DecidableEq, Repr

/-- Modelled from the spec: the reply header; carries at minimum the
resolved timestamp. -/
structure ResponseHeader where
  timestamp : Timestamp
deriving DecidableEq, Repr

/-- Modelled from the spec: the `Store` — clock, engine, optional
identity, resident ranges, and the read-timestamp cache. -/
structure Store where
  clock : Clock
  eng : Engine
  ident : Option StoreIdent
  ranges : List RangeMetadata
  rtc : ReadTimestampCache
deriving DecidableEq, Repr

/-- Modelled from the spec: `NewStore` — an uninitialized store over the
given clock and engine, with a fresh read-timestamp cache. -/
def NewStore (clock : Clock) (eng : Engine) : Store :=
  { clock := clock, eng := eng, ident := none, ranges := [],
    rtc := NewReadTimestampCache clock.state clock.maxDrift }

/-- Modelled from the spec: `Init` fails when the engine holds no
persisted `StoreIdent`; otherwise it reads the identity back and
reconstructs the resident ranges from the persisted metadata records. -/
def Store.Init (s : Store) : Except String Store :=
  match engGet s.eng keyStoreIdent with
  | some (.identVal si) =>
      .ok { s with ident := some si,
                   ranges := s.eng.filterMap (fun kv =>
                     match kv.2 with
                     | .rangeMetaVal rm => some rm
                     | _ => none) }
  | _ => .error "store has not been bootstrapped"

/-- Modelled from the spec: `Bootstrap` fails when the engine already
contains any data; on a genuinely empty engine it persists the ident. -/
def Store.Bootstrap (s : Store) (ident : StoreIdent) : Except String Store :=
  match s.eng with
  | [] => .ok { s with eng := engPut s.eng keyStoreIdent (.identVal ident),
                       ident := some ident }
  | _ :: _ => .error "bootstrap requires an empty engine"

/-- Modelled from the spec: `CreateRange` allocates the next range id
(ids start at 1), persists the metadata record under the key derived
from the end key, and appends the range to the resident collection. -/
def Store.CreateRange (s : Store) (start «end» : Key) (replicas : List Replica) :
    RangeMetadata × Store :=
  let rangeID : Int := Int.ofNat s.ranges.length + 1
  let clusterID : String := match s.ident with
    | some si => si.clusterID
    | none => ""
  let rm : RangeMetadata := ⟨clusterID, rangeID, ⟨start, «end», replicas⟩⟩
  (rm, { s with eng := engPut s.eng (rangeMetaKey «end») (.rangeMetaVal rm),
                ranges := s.ranges ++ [rm] })

/-- Modelled from the spec: `GetRange` fails with a not-found condition
when no resident range carries the id. -/
def Store.GetRange (s : Store) (rangeID : Int) : Except String RangeMetadata :=
  match s.ranges.find? (fun rm => rm.rangeID == rangeID) with
  | some rm => .ok rm
  | none => .error "range not found"

/-- Modelled from the spec: the `ExecuteCmd` dispatch pipeline — resolve
the target range from the replica's range id; resolve the timestamp
(zero means `clock.Now()`, otherwise `clock.Update(args.Timestamp)` with
a drift failure propagated and the command not executed); check key
bounds against the resolved range's descriptor; execute; record the read
in the read-timestamp cache; populate the reply timestamp. -/
def Store.ExecuteCmd (s : Store) (physicalClock : Int) (args : RequestHeader) :
    Except String (ResponseHeader × Store) :=
  match s.ranges.find? (fun rm => rm.rangeID == args.replica.RangeID) with
  | none => .error "range not found"
  | some rm =>
    let tcb : Timestamp × Clock × Bool :=
      if args.timestamp = ⟨0, 0⟩ then
        ((s.clock.Now physicalClock).1, (s.clock.Now physicalClock).2, false)
      else
        ((s.clock.Update physicalClock args.timestamp).result,
          (s.clock.Update physicalClock args.timestamp).clock,
          (s.clock.Update physicalClock args.timestamp).err)
    if tcb.2.2 then
      .error "remote wall time drifts from local physical clock"
    else
      match rm.desc.ContainsKeyRange args.key args.endKey with
      | some true =>
          .ok (⟨tcb.1⟩,
            { s with clock := tcb.2.1, rtc := s.rtc.Add args.key args.endKey tcb.1 })
      | _ => .error "key out of range"

/-- The store of the C4 witness: one resident range `["a", "z")` with
range id 1 over a clock at zero with drift checking disabled, as built
by the repository's `createTestStore`. -/
def storeW : Store :=
  { clock := ⟨⟨0, 0⟩, 0⟩, eng := [], ident := none,
    ranges := [⟨"", 1, ⟨[97], [122], [⟨0, 0, 1⟩]⟩⟩],
    rtc := NewReadTimestampCache ⟨0, 0⟩ 0 }

/-- C4 witness arguments: a `Get` of key "a" with no timestamp set. -/
def args0W : RequestHeader := ⟨⟨0, 0, 1⟩, [97], [], ⟨0, 0⟩⟩

/-- C4 witness arguments: a `Get` of key "a" proposing a timestamp 100ms
ahead of the store clock. -/
def argsPW : RequestHeader := ⟨⟨0, 0, 1⟩, [97], [], ⟨100000000, 1⟩⟩

/-- The store produced by `Bootstrap` of an empty engine. -/
def bootStore1 (clock : Clock) (ident : StoreIdent) : Store :=
  { clock := clock, eng := [(keyStoreIdent, .identVal ident)], ident := some ident,
    ranges := [], rtc := NewReadTimestampCache clock.state clock.maxDrift }

/-- The first range created after bootstrap, spanning the whole key
space with range id 1. -/
def bootRM (ident : StoreIdent) : RangeMetadata :=
  ⟨ident.clusterID, 1, ⟨KeyMin, KeyMax, []⟩⟩

/-- The bootstrapped store after creating the first range; also the store
recovered by `Init` over the same engine. -/
def bootStore2 (clock : Clock) (ident : StoreIdent) : Store :=
  { clock := clock,
    eng := [(keyStoreIdent, .identVal ident),
      (rangeMetaKey KeyMax, .rangeMetaVal (bootRM ident))],
    ident := some ident, ranges := [bootRM ident],
    rtc := NewReadTimestampCache clock.state clock.maxDrift }

/-- The timestamp returned by `Now` is exactly the state it leaves behind
(the Go deferred assignment reads the state after the mutation). -/
theorem now_fst_eq_state (c : Clock) (pc : Int) : (c.Now pc).1 = (c.Now pc).2.state := by
  unfold Clock.Now
  split <;> rfl

/-- `Now` always advances the clock state strictly. -/
theorem state_less_now (c : Clock) (pc : Int) : c.state.Less (c.Now pc).1 = true := by
  unfold Clock.Now Timestamp.Less
  split <;> simp <;> omega

/-- `Now` leaves `maxDrift` untouched. -/
theorem now_maxDrift (c : Clock) (pc : Int) : (c.Now pc).2.maxDrift = c.maxDrift := by
  unfold Clock.Now
  split <;> rfl

/-- Helper: the stream of `Now` results is strictly increasing for any
physical-clock readings whatsoever (the hybrid clock never goes
backwards even if the physical source does). -/
theorem nowSeq_chain_aux : ∀ (pcs : List Int) (c : Clock),
    (c.nowSeq pcs).Chain' (fun a b => a.Less b = true)
  | [], _ => by simp [Clock.nowSeq]
  | [_], _ => by simp [Clock.nowSeq]
  | pc1 :: pc2 :: rest, c => by
    have htail := nowSeq_chain_aux (pc2 :: rest) (c.Now pc1).2
    simp only [Clock.nowSeq] at htail ⊢
    refine List.chain'_cons.mpr ⟨?_, htail⟩
    rw [now_fst_eq_state]
    exact state_less_now _ _

/-- C2: for every clock and every finite sequence of `Now()` calls whose
physical-clock readings are non-decreasing, the returned timestamps are
strictly increasing in the timestamp total order (`Timestamp.Less`). -/
theorem now_strictly_increasing (c : Clock) (pcs : List Int)
    (hmono : pcs.Chain' (fun a b => a ≤ b)) :
    (c.nowSeq pcs).Chain' (fun a b => a.Less b = true) :=
  nowSeq_chain_aux pcs c

/-- Witness for C2 at a concrete clock and physical-clock readings. -/
theorem now_strictly_increasing_witness :
    ([(0 : Int), 5, 5].Chain' (fun a b => a ≤ b)) ∧
    ((Clock.nowSeq ⟨⟨0, 0⟩, 0⟩ [0, 5, 5]).Chain' (fun a b => a.Less b = true)) :=
  ⟨by simp [List.chain'_cons, List.chain'_singleton],
    now_strictly_increasing ⟨⟨0, 0⟩, 0⟩ [0, 5, 5]
      (by simp [List.chain'_cons, List.chain'_singleton])⟩

/-- C1: with drift checking active (`maxDrift > 0`), an `Update` whose
remote wall time is ahead of the stored wall time and more than
`maxDrift` ahead of the physical clock returns the drift error and
leaves the clock state (wall time and logical) exactly as it was. -/
theorem update_drift_error (c : Clock) (pc : Int) (rt : Timestamp)
    (hdrift : c.maxDrift > 0)
    (hahead : rt.WallTime > c.state.WallTime)
    (hfar : rt.WallTime - pc > c.maxDrift) :
    (c.Update pc rt).err = true ∧ (c.Update pc rt).clock = c := by
  unfold Clock.Update
  rw [if_neg (by omega : ¬(pc > c.state.WallTime ∧ pc > rt.WallTime)),
    if_pos hahead, if_pos ⟨hdrift, hfar⟩]
  exact ⟨rfl, rfl⟩

/-- Witness for C1: `maxDrift = 250ms` and a remote timestamp `250ms+1ns`
ahead of the physical clock, as in the repository's drift test. -/
theorem update_drift_error_witness :
    ((250000000 : Int) > 0 ∧ (250000002 : Int) > 0 ∧ (250000002 : Int) - 1 > 250000000) ∧
    ((Clock.Update ⟨⟨0, 0⟩, 250000000⟩ 1 ⟨250000002, 0⟩).err = true ∧
      (Clock.Update ⟨⟨0, 0⟩, 250000000⟩ 1 ⟨250000002, 0⟩).clock = ⟨⟨0, 0⟩, 250000000⟩) :=
  ⟨by decide,
    update_drift_error ⟨⟨0, 0⟩, 250000000⟩ 1 ⟨250000002, 0⟩ (by decide) (by decide) (by decide)⟩

/-- C9: every `Update` call that does not return the drift error returns a
timestamp strictly greater (in the timestamp total order) than both the
remote argument and the clock's state before the call. -/
theorem update_result_advances (c : Clock) (pc : Int) (rt : Timestamp)
    (hok : (c.Update pc rt).err = false) :
    rt.Less (c.Update pc rt).result = true ∧ c.state.Less (c.Update pc rt).result = true := by
  unfold Clock.Update at hok ⊢
  unfold Timestamp.Less
  by_cases h1 : pc > c.state.WallTime ∧ pc > rt.WallTime
  · rw [if_pos h1] at hok ⊢
    simp only
    constructor <;> simp <;> omega
  · rw [if_neg h1] at hok ⊢
    by_cases h2 : rt.WallTime > c.state.WallTime
    · rw [if_pos h2] at hok ⊢
      by_cases h3 : c.maxDrift > 0 ∧ rt.WallTime - pc > c.maxDrift
      · rw [if_pos h3] at hok
        exact absurd hok (by simp)
      · rw [if_neg h3]
        constructor <;> simp <;> omega
    · rw [if_neg h2] at hok ⊢
      by_cases h4 : c.state.WallTime > rt.WallTime
      · rw [if_pos h4]
        constructor <;> simp <;> omega
      · rw [if_neg h4]
        by_cases h5 : rt.Logical > c.state.Logical
        · simp only [if_pos h5]
          constructor <;> simp <;> omega
        · simp only [if_neg h5]
          constructor <;> simp <;> omega

/-- Witness for C9 at a concrete successful `Update`. -/
theorem update_result_advances_witness :
    ((Clock.Update ⟨⟨3, 7⟩, 0⟩ 1 ⟨3, 9⟩).err = false) ∧
    ((⟨3, 9⟩ : Timestamp).Less (Clock.Update ⟨⟨3, 7⟩, 0⟩ 1 ⟨3, 9⟩).result = true ∧
      (⟨3, 7⟩ : Timestamp).Less (Clock.Update ⟨⟨3, 7⟩, 0⟩ 1 ⟨3, 9⟩).result = true) :=
  ⟨by decide, update_result_advances ⟨⟨3, 7⟩, 0⟩ 1 ⟨3, 9⟩ (by decide)⟩

theorem key_less_irrefl : ∀ k : Key, k.less k = false
  | [] => rfl
  | a :: as => by simp [Key.less, key_less_irrefl as]

/-- The executable key order agrees with the mathematical lexicographic
strict order on byte lists. -/
theorem key_less_iff_lex : ∀ a b : Key, a.less b = true ↔ List.Lex (· < ·) a b
  | [], [] => by
    constructor
    · intro h
      exact absurd h (by simp [Key.less])
    · intro h
      cases h
  | [], b :: bs => by
    constructor
    · intro _
      exact List.Lex.nil
    · intro _
      rfl
  | a :: as, [] => by
    constructor
    · intro h
      exact absurd h (by simp [Key.less])
    · intro h
      cases h
  | a :: as, b :: bs => by
    by_cases hab : a < b
    · constructor
      · intro _
        exact List.Lex.rel hab
      · intro _
        simp [Key.less, hab]
    · by_cases hba : b < a
      · constructor
        · intro h
          exact absurd h (by simp [Key.less, hab, hba])
        · intro h
          cases h with
          | cons h' => omega
          | rel h' => omega
      · have heq : a = b := by omega
        subst heq
        rw [show Key.less (a :: as) (a :: bs) = Key.less as bs by
          simp [Key.less]]
        constructor
        · intro h
          exact List.Lex.cons ((key_less_iff_lex as bs).mp h)
        · intro h
          cases h with
          | cons h' => exact (key_less_iff_lex as bs).mpr h'
          | rel h' => omega

/-- C6: containment is exactly the lexicographic-interval condition.  A
key `k` is contained iff `StartKey ≤ k < EndKey`; a non-empty sub-range
`[s, e)` with `s ≤ e` is contained iff `StartKey ≤ s` and `e ≤ EndKey`
(with `≤` the negation of the strict lexicographic order); and on the
descriptor `["a", "z")` the four concrete examples evaluate as claimed. -/
theorem containsKey_containsKeyRange_spec (r : RangeDescriptor)
    (hdesc : List.Lex (· < ·) r.StartKey r.EndKey) :
    (∀ k : Key, r.ContainsKey k = true ↔
      (¬ List.Lex (· < ·) k r.StartKey ∧ List.Lex (· < ·) k r.EndKey)) ∧
    (∀ s e : Key, e ≠ [] → ¬ List.Lex (· < ·) e s →
      (r.ContainsKeyRange s e = some true ↔
        (¬ List.Lex (· < ·) s r.StartKey ∧ ¬ List.Lex (· < ·) r.EndKey e))) ∧
    descAZ.ContainsKey [97] = true ∧
    descAZ.ContainsKey [122] = false ∧
    descAZ.ContainsKeyRange [109] [110] = some true ∧
    descAZ.ContainsKeyRange [48] [97] = some false := by
  refine ⟨?_, ?_, by decide, by decide, by decide, by decide⟩
  · intro k
    unfold RangeDescriptor.ContainsKey
    rw [Bool.and_eq_true, Bool.not_eq_true']
    rw [show (k.less r.StartKey = false) ↔ ¬ (k.less r.StartKey = true) by simp]
    rw [key_less_iff_lex, key_less_iff_lex]
  · intro s e hne hle
    unfold RangeDescriptor.ContainsKeyRange
    rw [if_neg (show ¬ e.length = 0 by simpa using hne)]
    rw [if_neg (show ¬ (e.less s = true) from
      fun h => hle ((key_less_iff_lex e s).mp h))]
    rw [show ∀ b : Bool, (some b = some true) ↔ (b = true) by intro b; simp]
    rw [Bool.and_eq_true, Bool.not_eq_true', Bool.not_eq_true']
    rw [show (s.less r.StartKey = false) ↔ ¬ (s.less r.StartKey = true) by simp]
    rw [show (r.EndKey.less e = false) ↔ ¬ (r.EndKey.less e = true) by simp]
    rw [key_less_iff_lex, key_less_iff_lex]

/-- Witness for C6 on the `["a", "z")` descriptor and keys "m", "n". -/
theorem containsKey_containsKeyRange_spec_witness :
    (List.Lex (· < ·) ([97] : Key) [122]) ∧
    (descAZ.ContainsKey [97] = true) ∧
    (descAZ.ContainsKeyRange [109] [110] = some true ↔
      (¬ List.Lex (· < ·) ([109] : Key) [97] ∧ ¬ List.Lex (· < ·) ([122] : Key) [110])) :=
  ⟨(key_less_iff_lex [97] [122]).mp (by decide),
    (containsKey_containsKeyRange_spec descAZ
      ((key_less_iff_lex [97] [122]).mp (by decide))).2.2.1,
    (containsKey_containsKeyRange_spec descAZ
      ((key_less_iff_lex [97] [122]).mp (by decide))).2.1 [109] [110]
      (by decide)
      (fun h => by
        have h2 := (key_less_iff_lex [110] [109]).mpr h
        exact absurd h2 (by decide))⟩

/-- C10: with an empty end key, `ContainsKeyRange` degenerates to the
empty interval `[k, k)` at the single key `k`, which passes the bounds
check whenever `StartKey ≤ k ≤ EndKey`; in particular it accepts
`k = EndKey` even though `ContainsKey EndKey` is always false. -/
theorem containsKeyRange_empty_end (r : RangeDescriptor) (k : Key)
    (h1 : k.less r.StartKey = false)
    (h2 : r.EndKey.less k = false) :
    r.ContainsKeyRange k [] = some true ∧ r.ContainsKey r.EndKey = false := by
  constructor
  · unfold RangeDescriptor.ContainsKeyRange
    rw [if_pos (by simp : ([] : Key).length = 0)]
    rw [if_neg (by simp [key_less_irrefl k])]
    rw [h1, h2]
    rfl
  · unfold RangeDescriptor.ContainsKey
    rw [key_less_irrefl r.EndKey]
    simp

/-- Witness for C10: on the `["a", "z")` descriptor, the single-key query
at the end key "z" is accepted by `ContainsKeyRange` while `ContainsKey`
rejects "z". -/
theorem containsKeyRange_empty_end_witness :
    (Key.less [122] descAZ.StartKey = false ∧ Key.less descAZ.EndKey [122] = false) ∧
    (descAZ.ContainsKeyRange [122] [] = some true ∧ descAZ.ContainsKey descAZ.EndKey = false) :=
  ⟨by decide, containsKeyRange_empty_end descAZ [122] (by decide) (by decide)⟩

theorem tsLe_refl (a : Timestamp) : tsLe a a :=
  Or.inr rfl

theorem tsLe_trans {a b c : Timestamp} (h1 : tsLe a b) (h2 : tsLe b c) : tsLe a c := by
  unfold tsLe Timestamp.Less at *
  rcases h1 with h1 | h1 <;> rcases h2 with h2 | h2 <;>
    [skip; subst h2; subst h1; subst h1] <;> simp_all <;> omega

theorem tsLe_max_left (a b : Timestamp) : tsLe a (tsMax a b) := by
  unfold tsMax tsLe Timestamp.Less
  split <;> simp_all

theorem tsLe_max_right (a b : Timestamp) : tsLe b (tsMax a b) := by
  unfold tsMax tsLe
  split
  · exact Or.inr rfl
  · rename_i h
    by_cases heq : b = a
    · exact Or.inr heq
    · refine Or.inl ?_
      have hne : b.WallTime ≠ a.WallTime ∨ b.Logical ≠ a.Logical := by
        by_contra hc
        push_neg at hc
        exact heq (by cases a; cases b; simp_all)
      unfold Timestamp.Less at *
      simp only [Bool.or_eq_true, Bool.and_eq_true, decide_eq_true_eq, beq_iff_eq] at *
      omega

theorem tsMax_cases (a b : Timestamp) : tsMax a b = a ∨ tsMax a b = b := by
  unfold tsMax
  split <;> simp

theorem tsListMax_le_acc : ∀ (l : List Timestamp) (acc : Timestamp), tsLe acc (tsListMax acc l)
  | [], _ => tsLe_refl _
  | t :: ts, acc =>
    tsLe_trans (tsLe_max_left acc t) (tsListMax_le_acc ts (tsMax acc t))

theorem tsListMax_le_mem : ∀ (l : List Timestamp) (acc t : Timestamp),
    t ∈ l → tsLe t (tsListMax acc l)
  | [], _, _, h => absurd h (by simp)
  | t' :: ts, acc, t, h => by
    rcases List.mem_cons.mp h with h | h
    · subst h
      exact tsLe_trans (tsLe_max_right acc t) (tsListMax_le_acc ts (tsMax acc t))
    · exact tsListMax_le_mem ts (tsMax acc t') t h

theorem tsListMax_mem_or_acc : ∀ (l : List Timestamp) (acc : Timestamp),
    tsListMax acc l = acc ∨ tsListMax acc l ∈ l
  | [], _ => Or.inl rfl
  | t :: ts, acc => by
    rcases tsListMax_mem_or_acc ts (tsMax acc t) with h | h
    · rcases tsMax_cases acc t with h2 | h2
      · exact Or.inl (by rw [show tsListMax acc (t :: ts) = tsListMax (tsMax acc t) ts from rfl, h, h2])
      · exact Or.inr (by rw [show tsListMax acc (t :: ts) = tsListMax (tsMax acc t) ts from rfl, h, h2]; simp)
    · exact Or.inr (List.mem_cons_of_mem t h)

/-- Counterexample to C3 as stated: with the cache of the repository's
first cache test — a fresh cache at clock 0 with `maxDrift = 250ms` and a
single read of key "a" at timestamp `(0, 1)` — the stored entry overlaps
the query for "a", yet `GetMax` returns the high-water mark
`(250000000, 0)`, not the maximum timestamp `(0, 1)` among the
overlapping stored entries. -/
theorem getMax_claim_counterexample :
    overlaps [97] [] [97] [] = true ∧
    ((NewReadTimestampCache ⟨0, 0⟩ 250000000).Add [97] [] ⟨0, 1⟩).GetMax [97] []
      = ⟨250000000, 0⟩ ∧
    ((NewReadTimestampCache ⟨0, 0⟩ 250000000).Add [97] [] ⟨0, 1⟩).GetMax [97] []
      ≠ ⟨0, 1⟩ := by
  decide

/-- C3 (amended): `GetMax` returns the maximum of the high-water mark and
the timestamps of all stored entries overlapping the queried interval —
so it equals the high-water mark when no stored entry overlaps — and in
the layered scenario `Add("a","d",adTS)`, `Add("b","e",beTS)`,
`Add("c",nil,cTS)` with `adTS < beTS < cTS`, `GetMax("a","d") = cTS`. -/
theorem getMax_spec (rtc : ReadTimestampCache) (s e : Key) :
    tsLe rtc.highWater (rtc.GetMax s e) ∧
    (∀ ent ∈ rtc.entries, overlaps ent.1 ent.2.1 s e = true →
      tsLe ent.2.2 (rtc.GetMax s e)) ∧
    (rtc.GetMax s e = rtc.highWater ∨
      ∃ ent ∈ rtc.entries, overlaps ent.1 ent.2.1 s e = true ∧
        ent.2.2 = rtc.GetMax s e) ∧
    ((∀ ent ∈ rtc.entries, overlaps ent.1 ent.2.1 s e = false) →
      rtc.GetMax s e = rtc.highWater) ∧
    (adTS.Less beTS = true ∧ beTS.Less cTS = true ∧
      layeredCache.GetMax [97] [100] = cTS) := by
  refine ⟨?_, ?_, ?_, ?_, by decide⟩
  · exact tsListMax_le_acc _ _
  · intro ent hmem hov
    refine tsListMax_le_mem _ _ _ ?_
    unfold ReadTimestampCache.overlapping
    exact List.mem_map_of_mem _ (List.mem_filter.mpr ⟨hmem, hov⟩)
  · rcases tsListMax_mem_or_acc (rtc.overlapping s e) rtc.highWater with h | h
    · exact Or.inl h
    · refine Or.inr ?_
      unfold ReadTimestampCache.overlapping at h
      rcases List.mem_map.mp h with ⟨ent, hent, hts⟩
      rcases List.mem_filter.mp hent with ⟨hmem, hov⟩
      exact ⟨ent, hmem, hov, hts⟩
  · intro hno
    have hempty : rtc.overlapping s e = [] := by
      unfold ReadTimestampCache.overlapping
      rw [List.filter_eq_nil_iff.mpr (fun ent hmem => by simp [hno ent hmem])]
      rfl
    unfold ReadTimestampCache.GetMax
    rw [hempty]
    rfl

/-- Witness for C3's amended statement on a concrete one-entry cache. -/
theorem getMax_spec_witness :
    tsLe (⟨7, 0⟩ : Timestamp)
      (ReadTimestampCache.GetMax ⟨[([97], [], ⟨7, 0⟩)], ⟨3, 0⟩⟩ [97] []) ∧
    ReadTimestampCache.GetMax ⟨[([97], [], ⟨7, 0⟩)], ⟨3, 0⟩⟩ [98] [] = ⟨3, 0⟩ :=
  ⟨(getMax_spec ⟨[([97], [], ⟨7, 0⟩)], ⟨3, 0⟩⟩ [97] []).2.1 ([97], [], ⟨7, 0⟩)
      (by simp) (by decide),
    (getMax_spec ⟨[([97], [], ⟨7, 0⟩)], ⟨3, 0⟩⟩ [98] []).2.2.2.1
      (fun ent hmem => by
        rcases List.mem_singleton.mp hmem with rfl
        decide)⟩

/-- C7: after `Clear`, the cache has no entries and `GetMax` on any key or
interval returns the clock's timestamp at clear time plus `maxDrift`
(wall time shifted by the drift bound, logical component kept), as the
repository's clear test checks concretely. -/
theorem clear_resets_getMax (rtc : ReadTimestampCache) (clockTs : Timestamp)
    (maxDrift : Int) (s e : Key) :
    (rtc.Clear clockTs maxDrift).entries = [] ∧
    (rtc.Clear clockTs maxDrift).GetMax s e =
      ⟨clockTs.WallTime + maxDrift, clockTs.Logical⟩ ∧
    (((NewReadTimestampCache ⟨0, 0⟩ 250000000).Add [97] [] ⟨250000001, 0⟩).Clear
        ⟨250000001, 0⟩ 250000000).GetMax [97] [] = ⟨500000001, 0⟩ := by
  exact ⟨rfl, rfl, by decide⟩

/-- C8: eviction never lowers the high-water mark; after eviction the
high-water mark is the maximum of the previous floor and the timestamps
of every folded-away entry (it is bounded below by the floor and by each
folded timestamp, and equals one of them); and `GetMax` on an interval
overlapping no surviving entry returns exactly that folded maximum.  The
final conjunct replays the repository's eviction test: with the entry
for "a" folded away, `GetMax("c")` returns "a"'s timestamp. -/
theorem evict_highwater_spec (rtc : ReadTimestampCache) (nowWall mcw : Int) :
    tsLe rtc.highWater ((rtc.evict nowWall mcw).highWater) ∧
    (∀ ent ∈ rtc.entries, ent.2.2.WallTime + mcw ≤ nowWall →
      tsLe ent.2.2 ((rtc.evict nowWall mcw).highWater)) ∧
    ((rtc.evict nowWall mcw).highWater = rtc.highWater ∨
      ∃ ent ∈ rtc.entries, ent.2.2.WallTime + mcw ≤ nowWall ∧
        ent.2.2 = (rtc.evict nowWall mcw).highWater) ∧
    (∀ s e : Key,
      (∀ ent ∈ (rtc.evict nowWall mcw).entries, overlaps ent.1 ent.2.1 s e = false) →
      (rtc.evict nowWall mcw).GetMax s e = (rtc.evict nowWall mcw).highWater) ∧
    ((ReadTimestampCache.evict ⟨[([97], [], ⟨250000001, 0⟩)], ⟨250000000, 0⟩⟩
        60250000001 60000000000).highWater = ⟨250000001, 0⟩ ∧
      (ReadTimestampCache.evict ⟨[([97], [], ⟨250000001, 0⟩)], ⟨250000000, 0⟩⟩
        60250000001 60000000000).GetMax [99] [] = ⟨250000001, 0⟩) := by
  refine ⟨?_, ?_, ?_, ?_, by decide⟩
  · exact tsListMax_le_acc _ _
  · intro ent hmem hold
    refine tsListMax_le_mem _ _ _ ?_
    exact List.mem_map_of_mem _ (List.mem_filter.mpr ⟨hmem, by simpa using hold⟩)
  · rcases tsListMax_mem_or_acc
      ((rtc.entries.filter (fun ent => decide (ent.2.2.WallTime + mcw ≤ nowWall))).map
        (fun ent => ent.2.2)) rtc.highWater with h | h
    · exact Or.inl h
    · refine Or.inr ?_
      rcases List.mem_map.mp h with ⟨ent, hent, hts⟩
      rcases List.mem_filter.mp hent with ⟨hmem, hold⟩
      exact ⟨ent, hmem, by simpa using hold, hts⟩
  · intro s e hno
    have hempty : (rtc.evict nowWall mcw).overlapping s e = [] := by
      unfold ReadTimestampCache.overlapping
      rw [List.filter_eq_nil_iff.mpr (fun ent hmem => by simp [hno ent hmem])]
      rfl
    unfold ReadTimestampCache.GetMax
    rw [hempty]
    rfl

/-- Witness for C8 at the eviction test's concrete cache. -/
theorem evict_highwater_spec_witness :
    tsLe (⟨250000001, 0⟩ : Timestamp)
      ((ReadTimestampCache.evict ⟨[([97], [], ⟨250000001, 0⟩)], ⟨250000000, 0⟩⟩
        60250000001 60000000000).highWater) ∧
    (ReadTimestampCache.evict ⟨[([98], [], ⟨9, 9⟩)], ⟨4, 2⟩⟩ 100 1).GetMax [97] []
      = (ReadTimestampCache.evict ⟨[([98], [], ⟨9, 9⟩)], ⟨4, 2⟩⟩ 100 1).highWater :=
  ⟨(evict_highwater_spec ⟨[([97], [], ⟨250000001, 0⟩)], ⟨250000000, 0⟩⟩
      60250000001 60000000000).2.1 ([97], [], ⟨250000001, 0⟩) (by simp) (by norm_num),
    (evict_highwater_spec ⟨[([98], [], ⟨9, 9⟩)], ⟨4, 2⟩⟩ 100 1).2.2.2.1 [97] []
      (fun ent hmem => by
        rcases List.mem_filter.mp hmem with ⟨hm, _⟩
        rcases List.mem_singleton.mp hm with rfl
        decide)⟩

/-- C4: `ExecuteCmd` with a zero `args.Timestamp` resolves the timestamp
via `clock.Now()`, returns it in the reply, and the reply wall time
equals the store clock's wall time after the call; `ExecuteCmd` with a
non-zero proposed timestamp that is ahead of the store clock, at or
ahead of physical time, and within the drift bound, installs
`clock.Update(args.Timestamp)` as the new store clock, advancing its
wall time to match the proposed timestamp. -/
theorem executeCmd_timestamp_resolution (s : Store) (pc : Int)
    (args0 argsP : RequestHeader) (rm0 rmP : RangeMetadata)
    (hfind0 : s.ranges.find? (fun rm => rm.rangeID == args0.replica.RangeID) = some rm0)
    (hbounds0 : rm0.desc.ContainsKeyRange args0.key args0.endKey = some true)
    (hzero : args0.timestamp = ⟨0, 0⟩)
    (hfindP : s.ranges.find? (fun rm => rm.rangeID == argsP.replica.RangeID) = some rmP)
    (hboundsP : rmP.desc.ContainsKeyRange argsP.key argsP.endKey = some true)
    (hnzP : argsP.timestamp ≠ ⟨0, 0⟩)
    (haheadP : argsP.timestamp.WallTime > s.clock.state.WallTime)
    (hpcP : pc ≤ argsP.timestamp.WallTime)
    (hdriftP : s.clock.maxDrift ≤ 0 ∨ argsP.timestamp.WallTime - pc ≤ s.clock.maxDrift) :
    (∃ s2 : Store, s.ExecuteCmd pc args0 = .ok (⟨(s.clock.Now pc).1⟩, s2) ∧
      (s.clock.Now pc).1.WallTime = s2.clock.state.WallTime) ∧
    (∃ s2 : Store, s.ExecuteCmd pc argsP =
        .ok (⟨(s.clock.Update pc argsP.timestamp).result⟩, s2) ∧
      s2.clock = (s.clock.Update pc argsP.timestamp).clock ∧
      s2.clock.state.WallTime = argsP.timestamp.WallTime) := by
  constructor
  · have hrun : s.ExecuteCmd pc args0 = .ok (⟨(s.clock.Now pc).1⟩,
        { s with clock := (s.clock.Now pc).2,
                 rtc := s.rtc.Add args0.key args0.endKey (s.clock.Now pc).1 }) := by
      unfold Store.ExecuteCmd
      rw [hfind0]
      simp only [if_pos hzero, hbounds0]
      simp
    exact ⟨_, hrun, by rw [now_fst_eq_state]⟩
  · have hupd : (s.clock.Update pc argsP.timestamp).err = false := by
      unfold Clock.Update
      rw [if_neg (show ¬(pc > s.clock.state.WallTime ∧ pc > argsP.timestamp.WallTime)
        by omega)]
      rw [if_pos haheadP]
      rw [if_neg (show ¬(s.clock.maxDrift > 0 ∧
        argsP.timestamp.WallTime - pc > s.clock.maxDrift) by omega)]
    have hwall : (s.clock.Update pc argsP.timestamp).clock.state.WallTime =
        argsP.timestamp.WallTime := by
      unfold Clock.Update
      rw [if_neg (show ¬(pc > s.clock.state.WallTime ∧ pc > argsP.timestamp.WallTime)
        by omega)]
      rw [if_pos haheadP]
      rw [if_neg (show ¬(s.clock.maxDrift > 0 ∧
        argsP.timestamp.WallTime - pc > s.clock.maxDrift) by omega)]
    have hrun : s.ExecuteCmd pc argsP = .ok
        (⟨(s.clock.Update pc argsP.timestamp).result⟩,
          { s with clock := (s.clock.Update pc argsP.timestamp).clock,
                   rtc := s.rtc.Add argsP.key argsP.endKey
                     (s.clock.Update pc argsP.timestamp).result }) := by
      unfold Store.ExecuteCmd
      rw [hfindP]
      simp only [if_neg hnzP, hupd, hboundsP]
      simp
    exact ⟨_, hrun, rfl, hwall⟩

/-- Witness for C4 on the `createTestStore` configuration: a `Get` of "a"
with no timestamp and a `Get` of "a" proposing a timestamp 100ms ahead. -/
theorem executeCmd_timestamp_resolution_witness :
    (∃ s2 : Store, storeW.ExecuteCmd 0 args0W = .ok (⟨(storeW.clock.Now 0).1⟩, s2) ∧
      (storeW.clock.Now 0).1.WallTime = s2.clock.state.WallTime) ∧
    (∃ s2 : Store, storeW.ExecuteCmd 0 argsPW =
        .ok (⟨(storeW.clock.Update 0 argsPW.timestamp).result⟩, s2) ∧
      s2.clock = (storeW.clock.Update 0 argsPW.timestamp).clock ∧
      s2.clock.state.WallTime = argsPW.timestamp.WallTime) :=
  executeCmd_timestamp_resolution storeW 0 args0W argsPW
    ⟨"", 1, ⟨[97], [122], [⟨0, 0, 1⟩]⟩⟩ ⟨"", 1, ⟨[97], [122], [⟨0, 0, 1⟩]⟩⟩
    (by decide) (by decide) (by decide) (by decide) (by decide) (by decide)
    (by decide) (by decide) (by decide)

/-- A store whose engine holds no `StoreIdent` record fails `Init`. -/
theorem init_error_of_no_ident (s : Store)
    (h : ∀ si : StoreIdent, engGet s.eng keyStoreIdent ≠ some (.identVal si)) :
    ∃ msg, s.Init = .error msg := by
  unfold Store.Init
  split
  · rename_i si hget
    exact absurd hget (h si)
  · exact ⟨_, rfl⟩

/-- C5: `Init` fails when the engine holds no persisted `StoreIdent`;
`Bootstrap` fails when the engine already contains any data; and after a
successful `Bootstrap` of an empty engine and creation of the first
range (which receives range id 1), a fresh store over the same engine
initializes successfully and `GetRange 1` returns that range. -/
theorem store_bootstrap_spec (clock : Clock) (ident : StoreIdent) (eng : Engine)
    (hfresh : ∀ si : StoreIdent, engGet eng keyStoreIdent ≠ some (.identVal si))
    (hne : eng ≠ []) :
    (∃ msg, (NewStore clock eng).Init = .error msg) ∧
    (∃ msg, (NewStore clock eng).Bootstrap ident = .error msg) ∧
    (∃ s1 : Store, (NewStore clock []).Bootstrap ident = .ok s1 ∧
      ∃ rm : RangeMetadata, ∃ s2 : Store,
        s1.CreateRange KeyMin KeyMax [] = (rm, s2) ∧ rm.rangeID = 1 ∧
        ∃ s3 : Store, (NewStore clock s2.eng).Init = .ok s3 ∧
          s3.GetRange 1 = .ok rm) := by
  refine ⟨init_error_of_no_ident (NewStore clock eng) hfresh, ?_, ?_⟩
  · cases eng with
    | nil => exact absurd rfl hne
    | cons kv rest => exact ⟨_, rfl⟩
  · exact ⟨bootStore1 clock ident, rfl, bootRM ident, bootStore2 clock ident,
      rfl, rfl, bootStore2 clock ident, rfl, rfl⟩

/-- Witness for C5 at a concrete non-empty engine holding one raw record
("foo" maps to "bar", as in the repository's non-empty bootstrap test). -/
theorem store_bootstrap_spec_witness :
    ((∀ si : StoreIdent,
        engGet [([102, 111, 111], EngineValue.rawBytes [98, 97, 114])] keyStoreIdent ≠
          some (.identVal si)) ∧
      ([([102, 111, 111], EngineValue.rawBytes [98, 97, 114])] : Engine) ≠ []) ∧
    (∃ msg, (NewStore NewClock
        [([102, 111, 111], EngineValue.rawBytes [98, 97, 114])]).Init = .error msg) ∧
    (∃ msg, (NewStore NewClock
        [([102, 111, 111], EngineValue.rawBytes [98, 97, 114])]).Bootstrap
          ⟨"cluster", 1, 1⟩ = .error msg) :=
  ⟨⟨fun _ h => Option.noConfusion h, by simp⟩,
    (store_bootstrap_spec NewClock ⟨"cluster", 1, 1⟩
      [([102, 111, 111], EngineValue.rawBytes [98, 97, 114])]
      (fun _ h => Option.noConfusion h) (by simp)).1,
    (store_bootstrap_spec NewClock ⟨"cluster", 1, 1⟩
      [([102, 111, 111], EngineValue.rawBytes [98, 97, 114])]
      (fun _ h => Option.noConfusion h) (by simp)).2.1⟩

end Cockroach
